import Mathlib

/-!
# Verification of the LyricsMPRIS synchronization core

Shallow embedding of the LyricsMPRIS repository (Go) in Lean 4, covering:

* `pool.getIndex` — the incremental line-index lookup (src/pool/pool.go);
* the per-iteration body of `pool.Listen` — the polling loop that turns
  player-state samples and ticker ticks into `Update`s (src/pool/pool.go);
* `lyrics.parseSyncedLyrics`, `lyrics.FetchLyrics`,
  `lyrics.fetchLyricsBySearch` — the lrclib lookup protocol and the
  synchronized-lyrics parser (src/lyrics/lyrics.go);
* the track/seek handlers of the controller (src/unnamed/part_000).

Go `float64` positions and timestamps are modelled as `ℚ`: the code only
adds, divides by constants and compares them, and every claim under study is
about ordering and control flow, not rounding.  Go slices become `List`,
`nil` pointers become `Option`, and a Go `error` value becomes
`Option String` (`none` = `nil`).  External effects (HTTP, D-Bus, the wall
clock) enter as explicit oracle arguments.
-/

set_option maxRecDepth 100000

namespace LyricsMPRIS

/-- One synchronized lyric line.  `lyrics.LyricLine` / `LrcLibLyricLine` in
the source (the lyrics package names the text field `Words`, the pool and ui
packages consume it as `Text`; same data either way). -/
structure LyricLine where
  Time : ℚ
  Text : String
deriving DecidableEq, Repr

/-- Reads `lines[i].Time` with an arbitrary default out of bounds.  Go would panic
on an out-of-range read; `getIndexGo` below makes the one unchecked access
explicit, and every theorem about `getIndex` works under in-bounds
hypotheses, so the default value is never relied upon. -/
def timeAt (lines : List LyricLine) (i : ℕ) : ℚ :=
  (lines.getD i ⟨0, ""⟩).Time

/-- Body of the forward loop of `getIndex`, with `fuel` bounding the number
of remaining iterations (structural recursion standing in for the Go `for`
loop's progress measure `len(lines) - i`). -/
def forwardScanAux (position : ℚ) (lines : List LyricLine) : ℕ → ℕ → ℕ
  | 0, _ => lines.length - 1
  | fuel + 1, i =>
    if i < lines.length then
      if position < timeAt lines i then i - 1
      else forwardScanAux position lines fuel (i + 1)
    else lines.length - 1

/-- The forward loop of `getIndex` (src/pool/pool.go:125-130):
`for i := curIndex + 1; i < len(lines); i++ { if position < lines[i].Time
{ return i - 1 } }; return len(lines) - 1`. -/
def forwardScan (position : ℚ) (lines : List LyricLine) (i : ℕ) : ℕ :=
  forwardScanAux position lines (lines.length - i) i

/-- The backward loop of `getIndex` (src/pool/pool.go:132-137):
`for i := curIndex; i > 0; i-- { if position > lines[i].Time { return i } };
return 0`. -/
def backwardScan (position : ℚ) (lines : List LyricLine) : ℕ → ℕ
  | 0 => 0
  | i + 1 =>
    if timeAt lines (i + 1) < position then i + 1
    else backwardScan position lines i

/-- Embeds `pool.getIndex` (src/pool/pool.go:120-138), for an in-bounds `curIndex`.
The source reads `lines[curIndex]` without a bounds check; `getIndexGo`
below models that read faithfully, and agrees with this total function
whenever the read is in range. -/
def getIndex (position : ℚ) (curIndex : ℕ) (lines : List LyricLine) : ℕ :=
  if lines.length ≤ 1 then 0
  else if timeAt lines curIndex ≤ position then forwardScan position lines (curIndex + 1)
  else backwardScan position lines curIndex

/-- Embeds `pool.getIndex` with the unchecked `lines[curIndex]` read made explicit:
`none` is the out-of-range panic.  `curIndex` is an `ℤ` because the Go
parameter is an `int`.  All loop accesses after the first read are guarded
by the loop bounds themselves and stay in `[0, len)`. -/
def getIndexGo (position : ℚ) (curIndex : ℤ) (lines : List LyricLine) : Option ℕ :=
  if lines.length ≤ 1 then some 0
  else if 0 ≤ curIndex ∧ curIndex < (lines.length : ℤ) then
    some (if timeAt lines curIndex.toNat ≤ position
          then forwardScan position lines (curIndex.toNat + 1)
          else backwardScan position lines curIndex.toNat)
  else none

/-- Index of the last `i < n` satisfying `Q`, `0` when none does. -/
def lastSat (Q : ℕ → Prop) [DecidablePred Q] : ℕ → ℕ
  | 0 => 0
  | n + 1 => if Q n then n else lastSat Q n

/-- Modelled from the spec: the independent full-scan index lookup, "find
the greatest `i` with `LyricSet[i].time <= position`, defaulting to `0` if
position precedes the first line" (spec §4.3, §8).  The comparison
definition for the refinement claim about incremental stepping. -/
def specIndex (position : ℚ) (lines : List LyricLine) : ℕ :=
  lastSat (fun i => timeAt lines i ≤ position) lines.length

/-- The greatest `i` with `lines[i].Time` strictly below `position`, `0`
when none: what the backward loop of `getIndex` actually computes. -/
def specIndexLt (position : ℚ) (lines : List LyricLine) : ℕ :=
  lastSat (fun i => timeAt lines i < position) lines.length

/-- The claim's characterization of the correct index: the `i` with
`lines[i].time <= p` and (`i = N-1` or `p < lines[i+1].time`). -/
def isSpecIdx (position : ℚ) (lines : List LyricLine) (i : ℕ) : Prop :=
  timeAt lines i ≤ position ∧
    (i = lines.length - 1 ∨ position < timeAt lines (i + 1))

instance (p : ℚ) (lines : List LyricLine) (i : ℕ) : Decidable (isSpecIdx p lines i) := by
  unfold isSpecIdx; infer_instance

/-- A `LyricSet` sorted ascending by time (adjacent pairs; duplicates are
allowed, matching the spec's data-model invariant). -/
def Ascending (lines : List LyricLine) : Prop :=
  ∀ i, i + 1 < lines.length → timeAt lines i ≤ timeAt lines (i + 1)

instance (lines : List LyricLine) : Decidable (Ascending lines) :=
  decidable_of_iff (∀ i < lines.length - 1, timeAt lines i ≤ timeAt lines (i + 1))
    (by constructor <;> (intro h i hi; exact h i (by omega)))

/-! ## Order facts about the index lookups -/

theorem lastSat_of_not {Q : ℕ → Prop} [DecidablePred Q] {n : ℕ}
    (h : ∀ j, j < n → ¬ Q j) : lastSat Q n = 0 := by
  induction n with
  | zero => rfl
  | succ k ih =>
    rw [lastSat, if_neg (h k (Nat.lt_succ_self k))]
    exact ih fun j hj => h j (Nat.lt_succ_of_lt hj)

theorem lastSat_of {Q : ℕ → Prop} [DecidablePred Q] {n k : ℕ}
    (hk : k < n) (hQ : Q k) (hmax : ∀ j, k < j → j < n → ¬ Q j) :
    lastSat Q n = k := by
  induction n with
  | zero => omega
  | succ m ih =>
    rcases Nat.lt_succ_iff_lt_or_eq.mp hk with hlt | rfl
    · rw [lastSat, if_neg (hmax m hlt (Nat.lt_succ_self m))]
      exact ih hlt fun j h1 h2 => hmax j h1 (Nat.lt_succ_of_lt h2)
    · rw [lastSat, if_pos hQ]

theorem lastSat_lt {Q : ℕ → Prop} [DecidablePred Q] {n : ℕ} (h : 0 < n) :
    lastSat Q n < n := by
  induction n with
  | zero => omega
  | succ m ih =>
    rw [lastSat]
    split
    · exact Nat.lt_succ_self m
    · rcases Nat.eq_zero_or_pos m with rfl | hm
      · simp [lastSat]
      · exact Nat.lt_succ_of_lt (ih hm)

theorem lastSat_cases (Q : ℕ → Prop) [DecidablePred Q] (n : ℕ) :
    (∀ j, j < n → ¬ Q j) ∨
      (Q (lastSat Q n) ∧ ∀ j, lastSat Q n < j → j < n → ¬ Q j) := by
  induction n with
  | zero => exact Or.inl (by omega)
  | succ m ih =>
    by_cases hm : Q m
    · refine Or.inr ?_
      rw [lastSat, if_pos hm]
      exact ⟨hm, by omega⟩
    · rw [lastSat, if_neg hm]
      rcases ih with h | ⟨h1, h2⟩
      · exact Or.inl fun j hj => by
          rcases Nat.lt_succ_iff_lt_or_eq.mp hj with hlt | rfl
          · exact h j hlt
          · exact hm
      · refine Or.inr ⟨h1, fun j hj1 hj2 => ?_⟩
        rcases Nat.lt_succ_iff_lt_or_eq.mp hj2 with hlt | rfl
        · exact h2 j hj1 hlt
        · exact hm

theorem timeAt_mono {lines : List LyricLine} (h : Ascending lines) :
    ∀ {i j : ℕ}, i ≤ j → j < lines.length → timeAt lines i ≤ timeAt lines j := by
  intro i j hij hj
  induction j with
  | zero => cases Nat.le_zero.mp hij; exact le_refl _
  | succ k ih =>
    rcases Nat.le_succ_iff_eq_or_le.mp hij with rfl | hik
    · exact le_refl _
    · exact le_trans (ih hik (Nat.lt_of_succ_lt hj)) (h k hj)

theorem forwardScanAux_eq {lines : List LyricLine} {position : ℚ}
    (hasc : Ascending lines) :
    ∀ fuel i, lines.length ≤ fuel + i → 1 ≤ i → i - 1 < lines.length →
      timeAt lines (i - 1) ≤ position →
      forwardScanAux position lines fuel i = specIndex position lines := by
  intro fuel
  induction fuel with
  | zero =>
    intro i hfi h1 hlt hle
    have hi : i = lines.length := by omega
    rw [forwardScanAux]
    subst hi
    exact (lastSat_of hlt (by simpa using hle) (by omega)).symm
  | succ f ih =>
    intro i hfi h1 hlt hle
    rw [forwardScanAux]
    by_cases hi : i < lines.length
    · rw [if_pos hi]
      by_cases hp : position < timeAt lines i
      · rw [if_pos hp]
        refine (lastSat_of hlt (by simpa using hle) ?_).symm
        intro j hj1 hj2 hj3
        have : timeAt lines i ≤ timeAt lines j := timeAt_mono hasc (by omega) hj2
        exact absurd (le_trans this hj3) (not_le.mpr hp)
      · rw [if_neg hp]
        exact ih (i + 1) (by omega) (by omega) (by simpa using hi)
          (by simpa using not_lt.mp hp)
    · rw [if_neg hi]
      have hi' : i = lines.length := by omega
      subst hi'
      exact (lastSat_of hlt (by simpa using hle) (by omega)).symm

theorem forwardScan_eq {lines : List LyricLine} {position : ℚ} {cur : ℕ}
    (hasc : Ascending lines) (hcur : cur < lines.length)
    (hle : timeAt lines cur ≤ position) :
    forwardScan position lines (cur + 1) = specIndex position lines := by
  exact forwardScanAux_eq hasc _ (cur + 1) (by omega) (by omega)
    (by simpa using hcur) (by simpa using hle)

theorem backwardScanAux_eq {lines : List LyricLine} {position : ℚ} :
    ∀ i, i < lines.length →
      (∀ j, i < j → j < lines.length → ¬ timeAt lines j < position) →
      backwardScan position lines i = specIndexLt position lines := by
  intro i
  induction i with
  | zero =>
    intro h0 hmax
    by_cases hq : timeAt lines 0 < position
    · exact (lastSat_of h0 (by simpa using hq) (fun j h1 h2 => hmax j h1 h2)).symm
    · refine (lastSat_of_not fun j hj => ?_).symm
      rcases Nat.eq_zero_or_pos j with rfl | hjpos
      · simpa using hq
      · exact hmax j hjpos hj
  | succ k ih =>
    intro hk hmax
    rw [backwardScan]
    by_cases hq : timeAt lines (k + 1) < position
    · rw [if_pos hq]
      exact (lastSat_of hk (by simpa using hq) hmax).symm
    · rw [if_neg hq]
      refine ih (by omega) fun j hj1 hj2 => ?_
      rcases Nat.lt_or_ge j (k + 1) with hlt | hge
      · omega
      · rcases Nat.eq_or_lt_of_le hge with rfl | hgt
        · exact hq
        · exact hmax j hgt hj2

theorem backwardScan_eq {lines : List LyricLine} {position : ℚ} {cur : ℕ}
    (hasc : Ascending lines) (hcur : cur < lines.length)
    (hgt : position < timeAt lines cur) :
    backwardScan position lines cur = specIndexLt position lines := by
  refine backwardScanAux_eq cur hcur fun j hj1 hj2 hj3 => ?_
  have : timeAt lines cur ≤ timeAt lines j := timeAt_mono hasc (by omega) hj2
  exact absurd (lt_of_le_of_lt this hj3) (lt_irrefl position ∘ lt_trans hgt)

theorem specIndex_lt_length {position : ℚ} {lines : List LyricLine}
    (h : 0 < lines.length) : specIndex position lines < lines.length :=
  lastSat_lt h

theorem specIndex_valid (position : ℚ) (lines : List LyricLine) :
    specIndex position lines = 0 ∨
      (specIndex position lines < lines.length ∧
        timeAt lines (specIndex position lines) ≤ position) := by
  rcases Nat.eq_zero_or_pos lines.length with h0 | hpos
  · exact Or.inl (by simp [specIndex, h0, lastSat])
  · rcases lastSat_cases (fun i => timeAt lines i ≤ position) lines.length with h | ⟨h1, _⟩
    · exact Or.inl (lastSat_of_not h)
    · exact Or.inr ⟨lastSat_lt hpos, h1⟩

theorem isSpecIdx_specIndex {position : ℚ} {lines : List LyricLine}
    {cur : ℕ} (hcur : cur < lines.length)
    (hsat : timeAt lines cur ≤ position) :
    isSpecIdx position lines (specIndex position lines) := by
  rcases lastSat_cases (fun i => timeAt lines i ≤ position) lines.length with h | ⟨h1, h2⟩
  · exact absurd hsat (h cur hcur)
  · have hlt : specIndex position lines < lines.length := lastSat_lt (by omega)
    refine ⟨h1, ?_⟩
    by_cases hend : specIndex position lines + 1 < lines.length
    · exact Or.inr (not_le.mp (h2 _ (Nat.lt_succ_self _) hend))
    · exact Or.inl (by omega)

/-! ## Claim C1: what `getIndex` returns -/

/-- First lyric set used by concrete witnesses and counterexamples. -/
def lyr3 : List LyricLine := [⟨0, "a"⟩, ⟨5, "b"⟩, ⟨10, "c"⟩]

/-- C1 (counterexample).  For the ascending set with times `0, 5, 10`, the
position `5` (which does not precede the first line) and the valid previous
index `2`, the unique index satisfying the claimed characterization is `1`,
but `getIndex` returns `0`: the backward loop compares with strict `>`, so
an exact tie on a line time below the current index lands one line early. -/
theorem getIndex_unique_index_counterexample :
    Ascending lyr3 ∧ 2 < lyr3.length ∧ timeAt lyr3 0 ≤ 5 ∧
      getIndex 5 2 lyr3 = 0 ∧ isSpecIdx 5 lyr3 1 ∧ ¬ isSpecIdx 5 lyr3 0 := by
  decide

/-- Shared case analysis: with an in-bounds `curIndex` on an ascending set,
the forward branch computes `specIndex` and the backward branch computes
`specIndexLt`. -/
theorem getIndex_cases {p : ℚ} {cur : ℕ} {lines : List LyricLine}
    (hasc : Ascending lines) (hcur : cur < lines.length) :
    getIndex p cur lines =
      if timeAt lines cur ≤ p then specIndex p lines else specIndexLt p lines := by
  by_cases hlen : lines.length ≤ 1
  · have h1 : lines.length = 1 := by omega
    have hcur0 : cur = 0 := by omega
    have hspec : specIndex p lines = 0 := by
      rcases specIndex_valid p lines with h | ⟨h, _⟩
      · exact h
      · omega
    have hspecLt : specIndexLt p lines = 0 := by
      have := lastSat_lt (Q := fun i => timeAt lines i < p) (by omega : 0 < lines.length)
      unfold specIndexLt
      omega
    rw [getIndex, if_pos hlen, hspec, hspecLt]
    split <;> rfl
  · rw [getIndex, if_neg hlen]
    by_cases hle : timeAt lines cur ≤ p
    · rw [if_pos hle, if_pos hle]
      exact forwardScan_eq hasc hcur hle
    · rw [if_neg hle, if_neg hle]
      exact backwardScan_eq hasc hcur (not_le.mp hle)

/-- C1 (amended).  On an empty `LyricSet` `getIndex` returns `0`.  For an
ascending set and a valid previous index: when `p ≥ lines[curIndex].Time`
it returns the greatest `i` with `lines[i].Time ≤ p` — the claimed unique
index — and when `p < lines[curIndex].Time` it instead returns the greatest
`i` with `lines[i].Time` *strictly* below `p` (`0` when none), which is one
less than the claimed index exactly when `p` ties a line time. -/
theorem getIndex_characterization (p : ℚ) (cur : ℕ) (lines : List LyricLine) :
    getIndex p cur [] = 0 ∧
    (Ascending lines → cur < lines.length →
      (getIndex p cur lines =
        if timeAt lines cur ≤ p then specIndex p lines else specIndexLt p lines) ∧
      (timeAt lines cur ≤ p → isSpecIdx p lines (getIndex p cur lines))) := by
  refine ⟨rfl, fun hasc hcur => ⟨getIndex_cases hasc hcur, fun hle => ?_⟩⟩
  rw [getIndex_cases hasc hcur, if_pos hle]
  exact isSpecIdx_specIndex hcur hle

/-- Witness for `getIndex_characterization` at `p = 7`, `cur = 1` on
`lyr3`: the forward branch applies and hits the claimed unique index. -/
theorem getIndex_characterization_witness :
    getIndex 7 1 lyr3 = specIndex 7 lyr3 ∧ isSpecIdx 7 lyr3 (getIndex 7 1 lyr3) := by
  have h := (getIndex_characterization 7 1 lyr3).2 (by decide) (by decide)
  have hle : timeAt lyr3 1 ≤ 7 := by decide
  exact ⟨(h.1).trans (if_pos hle), h.2 hle⟩

/-! ## Claim C6: incremental stepping refines the full scan -/

/-- The index sequence produced by iterating `getIndex`, feeding each
result back as the next call's `curIndex` (this is exactly how `Listen`
threads `index` between iterations). -/
def stepIndicesGo (lines : List LyricLine) : ℕ → List ℚ → List ℕ
  | _, [] => []
  | cur, p :: ps => getIndex p cur lines :: stepIndicesGo lines (getIndex p cur lines) ps

/-- Incremental stepping starting from index `0`. -/
def stepIndices (lines : List LyricLine) (ps : List ℚ) : List ℕ :=
  stepIndicesGo lines 0 ps

theorem getIndex_eq_specIndex {p : ℚ} {cur : ℕ} {lines : List LyricLine}
    (hasc : Ascending lines)
    (hv : cur = 0 ∨ (cur < lines.length ∧ timeAt lines cur ≤ p)) :
    getIndex p cur lines = specIndex p lines := by
  rcases hv with rfl | ⟨hcur, hle⟩
  · rcases Nat.eq_zero_or_pos lines.length with h0 | hpos
    · rw [getIndex, if_pos (by omega)]
      simp [specIndex, h0, lastSat]
    · have h := getIndex_cases (p := p) hasc hpos
      by_cases hle : timeAt lines 0 ≤ p
      · rw [h, if_pos hle]
      · rw [h, if_neg hle]
        have hnone : ∀ j, j < lines.length → ¬ timeAt lines j < p := by
          intro j hj
          have h0j : timeAt lines 0 ≤ timeAt lines j := timeAt_mono hasc (Nat.zero_le j) hj
          have := not_le.mp hle
          exact not_lt.mpr (le_trans (le_of_lt this) h0j)
        have hnone' : ∀ j, j < lines.length → ¬ timeAt lines j ≤ p := by
          intro j hj
          have h0j : timeAt lines 0 ≤ timeAt lines j := timeAt_mono hasc (Nat.zero_le j) hj
          exact not_le.mpr (lt_of_lt_of_le (not_le.mp hle) h0j)
        rw [specIndexLt, specIndex, lastSat_of_not hnone, lastSat_of_not hnone']
  · rw [getIndex_cases hasc hcur, if_pos hle]

/-- C6.  For an ascending `LyricSet` and a monotonically non-decreasing
position sequence, iterating `getIndex` with each result fed back as the
next `curIndex` (starting from `0`) produces exactly the index sequence of
independent full scans (`specIndex`) per position. -/
theorem stepIndices_eq_fullScan (lines : List LyricLine) (ps : List ℚ)
    (hasc : Ascending lines) (hmono : ps.Chain' (· ≤ ·)) :
    stepIndices lines ps = ps.map fun p => specIndex p lines := by
  have go : ∀ (qs : List ℚ) (cur : ℕ), qs.Chain' (· ≤ ·) →
      (∀ p, qs.head? = some p → cur = 0 ∨ (cur < lines.length ∧ timeAt lines cur ≤ p)) →
      stepIndicesGo lines cur qs = qs.map fun p => specIndex p lines := by
    intro qs
    induction qs with
    | nil => intro cur _ _; rfl
    | cons p ps ih =>
      intro cur hchain hv
      have hcp := hv p rfl
      have hstep : getIndex p cur lines = specIndex p lines :=
        getIndex_eq_specIndex hasc hcp
      have hchain' := List.chain'_cons'.mp hchain
      rw [stepIndicesGo, hstep, List.map_cons]
      refine congrArg _ (ih (specIndex p lines) hchain'.2 fun q hq => ?_)
      rcases specIndex_valid p lines with h0 | ⟨hlt, hle⟩
      · exact Or.inl h0
      · have hpq : p ≤ q := hchain'.1 q hq
        exact Or.inr ⟨hlt, le_trans hle hpq⟩
  exact go ps 0 hmono fun p _ => Or.inl rfl

/-- Witness for `stepIndices_eq_fullScan` on `lyr3` and positions
`[1, 6, 11]`. -/
theorem stepIndices_eq_fullScan_witness :
    stepIndices lyr3 [1, 6, 11] = List.map (fun p => specIndex p lyr3) [1, 6, 11] :=
  stepIndices_eq_fullScan lyr3 [1, 6, 11] (by decide)
    (List.chain'_cons.mpr ⟨by norm_num,
      List.chain'_cons.mpr ⟨by norm_num, List.chain'_singleton _⟩⟩)

/-! ## Claim C10: bounds safety of `getIndex` -/

theorem forwardScanAux_lt {p : ℚ} {lines : List LyricLine}
    (hlen : 0 < lines.length) :
    ∀ fuel i, forwardScanAux p lines fuel i < lines.length := by
  intro fuel
  induction fuel with
  | zero => intro i; rw [forwardScanAux]; omega
  | succ f ih =>
    intro i
    rw [forwardScanAux]
    by_cases hi : i < lines.length
    · rw [if_pos hi]
      by_cases hp : p < timeAt lines i
      · rw [if_pos hp]; omega
      · rw [if_neg hp]; exact ih (i + 1)
    · rw [if_neg hi]; omega

theorem backwardScan_le {p : ℚ} {lines : List LyricLine} :
    ∀ i, backwardScan p lines i ≤ i := by
  intro i
  induction i with
  | zero => exact le_refl 0
  | succ k ih =>
    rw [backwardScan]
    by_cases hp : timeAt lines (k + 1) < p
    · rw [if_pos hp]
    · rw [if_neg hp]; omega

/-- C10.  With the unchecked `lines[curIndex]` read modelled explicitly
(`none` = out-of-range panic): when the set has at least two lines the call
succeeds exactly for `0 ≤ curIndex < len(lines)`; under that precondition
every returned index is itself below `len(lines)`; and feeding any returned
index back as the next call's `curIndex` can never panic. -/
theorem getIndexGo_total (p : ℚ) (cur : ℤ) (lines : List LyricLine) :
    (2 ≤ lines.length →
      ((getIndexGo p cur lines).isSome ↔ (0 ≤ cur ∧ cur < (lines.length : ℤ)))) ∧
    ((0 ≤ cur ∧ cur < (lines.length : ℤ)) →
      ∀ i, getIndexGo p cur lines = some i → i < lines.length) ∧
    (∀ i, getIndexGo p cur lines = some i →
      ∀ q : ℚ, (getIndexGo q (i : ℤ) lines).isSome) := by
  have hbody : ∀ c : ℕ, c < lines.length →
      (if timeAt lines c ≤ p then forwardScan p lines (c + 1)
       else backwardScan p lines c) < lines.length := by
    intro c hc
    by_cases hle : timeAt lines c ≤ p
    · rw [if_pos hle]
      exact forwardScanAux_lt (by omega) _ _
    · rw [if_neg hle]
      exact lt_of_le_of_lt (backwardScan_le c) hc
  refine ⟨?_, ?_, ?_⟩
  · intro hlen
    rw [getIndexGo, if_neg (by omega)]
    by_cases hc : 0 ≤ cur ∧ cur < (lines.length : ℤ)
    · rw [if_pos hc]; simpa using hc
    · rw [if_neg hc]; simpa using hc
  · intro hc i hi
    rw [getIndexGo] at hi
    by_cases hlen : lines.length ≤ 1
    · rw [if_pos hlen] at hi
      have : i = 0 := by injection hi with h; omega
      omega
    · rw [if_neg hlen, if_pos hc] at hi
      injection hi with h
      have := hbody cur.toNat (by omega)
      omega
  · intro i hi q
    rw [getIndexGo] at hi
    by_cases hlen : lines.length ≤ 1
    · rw [if_pos hlen] at hi
      rw [getIndexGo, if_pos hlen]
      rfl
    · by_cases hc : 0 ≤ cur ∧ cur < (lines.length : ℤ)
      · rw [if_neg hlen, if_pos hc] at hi
        injection hi with h
        have hib : i < lines.length := by
          have := hbody cur.toNat (by omega)
          omega
        rw [getIndexGo, if_neg hlen, if_pos (by constructor <;> omega)]
        rfl
      · rw [if_neg hlen, if_neg hc] at hi
        exact absurd hi (by simp)

/-- Witness for `getIndexGo_total`: on the three-line set, a call with
`curIndex = 1` is in bounds and succeeds. -/
theorem getIndexGo_total_witness : (getIndexGo 1 1 lyr3).isSome :=
  ((getIndexGo_total 1 1 lyr3).1 (by decide)).mpr (by decide)

/-! ## The synchronized-lyrics parser (src/lyrics/lyrics.go:35-59)

`parseSyncedLyrics` splits the payload on `'\n'`, requires a leading `'['`
and some `']'`, trims the text after the bracket, drops the line when that
text is empty, and reads the bracket content with
`fmt.Sscanf(timestamp, "%02f:%02f.%02f", &min, &sec, &centi)` — whose error
is ignored, so a failed scan leaves the remaining fields at `0`.  The
`Sscanf` model below reproduces Go's scanner: each `%02f` skips leading
spaces, greedily takes at most two characters following float syntax and
parses them like `strconv.ParseFloat` (hexadecimal/inf/nan forms cannot fit
in two characters and are omitted), literal `:` and `.` must match exactly,
and scanning stops at the first failure, keeping earlier assignments. -/

/-- Go `unicode.IsSpace` (the Unicode White_Space property). -/
def goIsSpace (c : Char) : Bool :=
  decide (c.toNat = 0x20 ∨ (0x9 ≤ c.toNat ∧ c.toNat ≤ 0xD) ∨ c.toNat = 0x85 ∨
    c.toNat = 0xA0 ∨ c.toNat = 0x1680 ∨ (0x2000 ≤ c.toNat ∧ c.toNat ≤ 0x200A) ∨
    c.toNat = 0x2028 ∨ c.toNat = 0x2029 ∨ c.toNat = 0x202F ∨ c.toNat = 0x205F ∨
    c.toNat = 0x3000)

/-- Go `strings.TrimSpace` on the characters of one line. -/
def trimSpace (cs : List Char) : List Char :=
  ((cs.dropWhile goIsSpace).reverse.dropWhile goIsSpace).reverse

/-- Go `strings.Split(s, "\n")`. -/
def splitOnNL : List Char → List (List Char)
  | [] => [[]]
  | c :: rest =>
    if c = '\n' then [] :: splitOnNL rest
    else
      match splitOnNL rest with
      | [] => [[c]]
      | h :: t => (c :: h) :: t

/-- States of Go's float-token accumulator (`fmt.(*ss).floatToken`). -/
inductive ScanSt where
  | start | signed | intDig | frac | expMark | expSigned | expDig
deriving DecidableEq

def isExpChar (c : Char) : Bool :=
  c = 'e' || c = 'E' || c = 'p' || c = 'P'

/-- Which next character the float-token accumulator accepts in each
state: `[sign] digits ['.' digits] [exponent [sign] digits]`. -/
def scanAccept : ScanSt → Char → Option ScanSt
  | .start, c =>
    if c = '+' ∨ c = '-' then some .signed
    else if c.isDigit then some .intDig
    else if c = '.' then some .frac
    else none
  | .signed, c =>
    if c.isDigit then some .intDig
    else if c = '.' then some .frac
    else none
  | .intDig, c =>
    if c.isDigit then some .intDig
    else if c = '.' then some .frac
    else if isExpChar c then some .expMark
    else none
  | .frac, c =>
    if c.isDigit then some .frac
    else if isExpChar c then some .expMark
    else none
  | .expMark, c =>
    if c = '+' ∨ c = '-' then some .expSigned
    else if c.isDigit then some .expDig
    else none
  | .expSigned, c => if c.isDigit then some .expDig else none
  | .expDig, c => if c.isDigit then some .expDig else none

def floatTokAux : ℕ → ScanSt → List Char → List Char → List Char × List Char
  | 0, _, acc, cs => (acc.reverse, cs)
  | _ + 1, _, acc, [] => (acc.reverse, [])
  | w + 1, st, acc, c :: rest =>
    match scanAccept st c with
    | some st2 => floatTokAux w st2 (c :: acc) rest
    | none => (acc.reverse, c :: rest)

/-- Greedily take the float token of at most `width` characters (the `2` of
`%02f`), returning the token and the unconsumed input. -/
def takeFloatToken (width : ℕ) (cs : List Char) : List Char × List Char :=
  floatTokAux width .start [] cs

def digitsToNat (ds : List Char) : ℕ :=
  ds.foldl (fun a c => a * 10 + (c.toNat - '0'.toNat)) 0

/-- Decimal exponent continuation of `strconv.ParseFloat` (`e`/`E` only:
a `p` exponent is rejected outside hexadecimal floats). -/
def expCont (v : ℚ) (r : List Char) : Option ℚ :=
  let s : Bool × List Char :=
    match r with
    | '+' :: t => (false, t)
    | '-' :: t => (true, t)
    | t => (false, t)
  let ds := s.2.takeWhile Char.isDigit
  if ds = [] ∨ s.2.dropWhile Char.isDigit ≠ [] then none
  else some (if s.1 then v / 10 ^ digitsToNat ds else v * 10 ^ digitsToNat ds)

/-- Go `strconv.ParseFloat` on a decimal token, as an exact rational. -/
def ratOfToken (tok : List Char) : Option ℚ :=
  let s : ℚ × List Char :=
    match tok with
    | '+' :: r => (1, r)
    | '-' :: r => (-1, r)
    | r => (1, r)
  let ip := s.2.takeWhile Char.isDigit
  match s.2.dropWhile Char.isDigit with
  | [] => if ip = [] then none else some (s.1 * digitsToNat ip)
  | '.' :: r3 =>
    let fp := r3.takeWhile Char.isDigit
    if ip = [] ∧ fp = [] then none
    else
      let mant : ℚ := s.1 * ((digitsToNat ip : ℚ) + (digitsToNat fp : ℚ) / 10 ^ fp.length)
      match r3.dropWhile Char.isDigit with
      | [] => some mant
      | 'e' :: r5 => expCont mant r5
      | 'E' :: r5 => expCont mant r5
      | _ => none
  | 'e' :: r5 => if ip = [] then none else expCont (s.1 * digitsToNat ip) r5
  | 'E' :: r5 => if ip = [] then none else expCont (s.1 * digitsToNat ip) r5
  | _ => none

/-- The space skipping a `%f` verb performs before its token in `Sscanf`
(newlines stop the scan instead; either way the token comes out empty there
and the field keeps its zero value, which is all the caller observes). -/
def skipScanSpace (cs : List Char) : List Char :=
  cs.dropWhile fun c => goIsSpace c && c != '\n' && c != '\r'

/-- Computes `min*60 + sec + centi/100` as evaluated after
`fmt.Sscanf(timestamp, "%02f:%02f.%02f", &min, &sec, &centi)` with the
error ignored: fields after the first failure stay `0`. -/
def sscanfTimeVal (ts : List Char) : ℚ :=
  let t1 := takeFloatToken 2 (skipScanSpace ts)
  match ratOfToken t1.1 with
  | none => 0
  | some m =>
    match t1.2 with
    | ':' :: r2 =>
      let t2 := takeFloatToken 2 (skipScanSpace r2)
      match ratOfToken t2.1 with
      | none => m * 60
      | some s =>
        match t2.2 with
        | '.' :: r4 =>
          let t3 := takeFloatToken 2 (skipScanSpace r4)
          match ratOfToken t3.1 with
          | none => m * 60 + s
          | some c => m * 60 + s + c / 100
        | _ => m * 60 + s
    | _ => m * 60

/-- One iteration of the `parseSyncedLyrics` loop, on the characters of one
line: `none` when the loop `continue`s without appending.  The Go code
binds `timestamp := line[1:endIdx]` and `words := TrimSpace(line[endIdx+1:])`
once; they are inlined here (`endIdx` is the position of the first `']'`,
whose existence the `strings.Index` check guarantees — the leading
character is `'['`, so searching the whole line and searching its tail
agree). -/
def parseLineChars (cs : List Char) : Option LyricLine :=
  match cs with
  | [] => none
  | c :: rest =>
    if c ≠ '[' then none
    else if ']' ∈ rest then
      if trimSpace (rest.dropWhile (· != ']')).tail = [] then none
      else some ⟨sscanfTimeVal (rest.takeWhile (· != ']')),
                 String.mk (trimSpace (rest.dropWhile (· != ']')).tail)⟩
    else none

/-- Embeds `lyrics.parseSyncedLyrics` (src/lyrics/lyrics.go:35-59). -/
def parseSyncedLyrics (synced : String) : List LyricLine :=
  (splitOnNL synced.data).filterMap parseLineChars

/-! ## Claim C3: the spec's example payload -/

/-- The payload of the spec's parsing example. -/
def c3payload : String := "[00:12.34]Hello\n[bad]\n[01:00.00]  \n[00:05.00]World"

/-- C3 (counterexample).  The example payload does not parse to
`[{5.0, World}, {12.34, Hello}]`: `parseSyncedLyrics` keeps payload order
and never sorts, so `Hello` (timestamped 12.34) comes first. -/
theorem parseSyncedLyrics_example_counterexample :
    parseSyncedLyrics c3payload ≠ [⟨5, "World"⟩, ⟨617/50, "Hello"⟩] :=
  of_decide_eq_true (by with_unfolding_all rfl)

/-- C3 (amended).  The example payload parses to exactly two lines —
`{12.34, "Hello"}` then `{5.0, "World"}`, in payload order (no sorting is
applied); the malformed-bracket line and the blank-text line are dropped
(both because their trimmed text is empty). -/
theorem parseSyncedLyrics_example_eval :
    parseSyncedLyrics c3payload = [⟨617/50, "Hello"⟩, ⟨5, "World"⟩] :=
  of_decide_eq_true (by with_unfolding_all rfl)

/-! ## Claim C5: which lines the parser drops -/

theorem splitOnNL_no_nl : ∀ {cs : List Char}, '\n' ∉ cs → splitOnNL cs = [cs] := by
  intro cs
  induction cs with
  | nil => intro _; rfl
  | cons c rest ih =>
    intro h
    rw [splitOnNL, if_neg (fun hc => h (List.mem_cons.mpr (Or.inl hc.symm))),
      ih fun hm => h (List.mem_cons_of_mem c hm)]

theorem takeWhile_append_rbracket {ts ws : List Char} (h : ']' ∉ ts) :
    (ts ++ ']' :: ws).takeWhile (· != ']') = ts := by
  induction ts with
  | nil => simp
  | cons c ts ih =>
    have hc : (c != ']') = true := by
      simp only [bne_iff_ne, ne_eq]
      exact fun hh => h (List.mem_cons.mpr (Or.inl hh.symm))
    rw [List.cons_append, List.takeWhile_cons, hc]
    simp only [ite_true]
    rw [ih fun hm => h (List.mem_cons_of_mem c hm)]

theorem dropWhile_append_rbracket {ts ws : List Char} (h : ']' ∉ ts) :
    (ts ++ ']' :: ws).dropWhile (· != ']') = ']' :: ws := by
  induction ts with
  | nil => simp
  | cons c ts ih =>
    have hc : (c != ']') = true := by
      simp only [bne_iff_ne, ne_eq]
      exact fun hh => h (List.mem_cons.mpr (Or.inl hh.symm))
    rw [List.cons_append, List.dropWhile_cons, hc]
    simp only [ite_true]
    exact ih fun hm => h (List.mem_cons_of_mem c hm)

/-- C5 (amended).  A line whose bracket content fails to parse as
`minutes:seconds.centiseconds` is *not* dropped: any single-line payload
`"[" ++ ts ++ "]" ++ ws` with a closing bracket and non-empty trimmed text
is kept, with the time computed by the error-ignoring scan (fields after
the first scan failure stay `0`).  Only lines without a leading `'['`,
without any `']'`, or with empty trimmed text are dropped. -/
theorem parseSyncedLyrics_malformed_kept (ts ws : List Char)
    (hbr : ']' ∉ ts) (hn1 : '\n' ∉ ts) (hn2 : '\n' ∉ ws)
    (hw : trimSpace ws ≠ []) :
    parseSyncedLyrics (String.mk ('[' :: (ts ++ ']' :: ws))) =
      [⟨sscanfTimeVal ts, String.mk (trimSpace ws)⟩] := by
  have hnl : '\n' ∉ ('[' :: (ts ++ ']' :: ws)) := by
    intro hm
    rcases List.mem_cons.mp hm with h1 | hm2
    · exact absurd h1 (by decide)
    · rcases List.mem_append.mp hm2 with h2 | h3
      · exact hn1 h2
      · rcases List.mem_cons.mp h3 with h4 | h5
        · exact absurd h4 (by decide)
        · exact hn2 h5
  have hpl : parseLineChars ('[' :: (ts ++ ']' :: ws)) =
      some ⟨sscanfTimeVal ts, String.mk (trimSpace ws)⟩ := by
    rw [parseLineChars]
    rw [if_neg (fun hne => hne rfl),
      if_pos (List.mem_append.mpr (Or.inr (List.mem_cons_self _ _)))]
    rw [takeWhile_append_rbracket hbr, dropWhile_append_rbracket hbr]
    rw [List.tail_cons, if_neg hw]
  show (splitOnNL ('[' :: (ts ++ ']' :: ws))).filterMap parseLineChars = _
  rw [splitOnNL_no_nl hnl, List.filterMap_cons, hpl]
  rfl

/-- Witness for `parseSyncedLyrics_malformed_kept` at the claim's own
example `"[bad]some text"`: the line is kept as `{0, "some text"}`. -/
theorem parseSyncedLyrics_malformed_kept_witness :
    parseSyncedLyrics "[bad]some text" = [⟨0, "some text"⟩] := by
  have h := parseSyncedLyrics_malformed_kept "bad".data "some text".data
    (of_decide_eq_true (by with_unfolding_all rfl))
    (of_decide_eq_true (by with_unfolding_all rfl))
    (of_decide_eq_true (by with_unfolding_all rfl))
    (of_decide_eq_true (by with_unfolding_all rfl))
  rw [show ("[bad]some text" : String) =
        String.mk ('[' :: ("bad".data ++ ']' :: "some text".data)) from rfl, h]
  exact of_decide_eq_true (by with_unfolding_all rfl)

/-- C5 (counterexample).  `"[bad]some text"` has a leading bracket that
does not match `minutes:seconds.centiseconds` and non-empty trailing text;
the claim says such a line is dropped, but it appears in the returned line
set (with time `0`). -/
theorem parseSyncedLyrics_malformed_counterexample :
    (⟨0, "some text"⟩ : LyricLine) ∈ parseSyncedLyrics "[bad]some text" ∧
      parseSyncedLyrics "[bad]some text" ≠ [] :=
  of_decide_eq_true (by with_unfolding_all rfl)

/-! ## The lrclib lookup protocol (src/lyrics/lyrics.go:69-175)

`FetchLyrics` and `fetchLyricsBySearch` are deterministic functions of the
HTTP exchanges they perform, so each exchange enters as an oracle value:
either a transport failure (`client.Do` error; an `http.NewRequest` failure
takes the same `(nil, err)` path) or a response with a status code and a
body.  Reading or unmarshalling the body can itself fail; on success the
model keeps just the fields the code consumes — `syncedLyrics` of the
object (`/api/get`) or of each object in the array (`/api/search`).  Query
construction (`normalizeQuotes`, URL escaping) only affects the request,
never how a given oracle value is mapped to a result, so it has no
observable effect here. -/

/-- The fields of `LrcLibAPIResponse` the code reads after unmarshalling. -/
structure LrcLibAPIResponse where
  syncedLyrics : String
deriving DecidableEq

/-- Reading and unmarshalling an HTTP response body. -/
inductive BodyOutcome (α : Type) where
  | readErr (msg : String)
  | unmarshalErr (msg : String)
  | ok (v : α)
deriving DecidableEq

/-- One HTTP exchange: transport failure, or status plus body. -/
inductive HTTPResult (α : Type) where
  | transportErr (msg : String)
  | response (status : ℕ) (body : BodyOutcome α)
deriving DecidableEq

/-- A parsed lyric (`lyrics.LrcLibLyric` / `lyrics.Lyric`). -/
structure LrcLibLyric where
  Lines : List LyricLine
deriving DecidableEq

/-- The candidate loop of `fetchLyricsBySearch`: first result with a
non-empty `syncedLyrics` that parses to at least one line. -/
def searchLoop : List LrcLibAPIResponse → Option LrcLibLyric × Option String
  | [] => (none, none)
  | r :: rest =>
    if r.syncedLyrics ≠ "" then
      if parseSyncedLyrics r.syncedLyrics ≠ [] then
        (some ⟨parseSyncedLyrics r.syncedLyrics⟩, none)
      else searchLoop rest
    else searchLoop rest

/-- Embeds `lyrics.fetchLyricsBySearch` (src/lyrics/lyrics.go:130-175) as a
function of its one HTTP exchange. -/
def fetchLyricsBySearch (search : HTTPResult (List LrcLibAPIResponse)) :
    Option LrcLibLyric × Option String :=
  match search with
  | .transportErr e => (none, some e)
  | .response status body =>
    if status ≠ 200 then (none, none)
    else
      match body with
      | .readErr e => (none, some e)
      | .unmarshalErr e => (none, some e)
      | .ok results => searchLoop results

/-- Embeds `lyrics.FetchLyrics` (src/lyrics/lyrics.go:69-128) as a function of its
exact-match exchange and (when the fallback fires) its search exchange. -/
def FetchLyrics (exact : HTTPResult LrcLibAPIResponse)
    (search : HTTPResult (List LrcLibAPIResponse)) :
    Option LrcLibLyric × Option String :=
  match exact with
  | .transportErr e => (none, some e)
  | .response status body =>
    if status = 404 ∨ status = 400 then fetchLyricsBySearch search
    else if status ≠ 200 then (none, none)
    else
      match body with
      | .readErr e => (none, some e)
      | .unmarshalErr e => (none, some e)
      | .ok apiResp =>
        if apiResp.syncedLyrics = "" then (none, none)
        else
          if parseSyncedLyrics apiResp.syncedLyrics = [] then (none, none)
          else (some ⟨parseSyncedLyrics apiResp.syncedLyrics⟩, none)

/-! ## Claim C4: statuses other than 200 and not-found -/

/-- C4 (counterexample).  A 500 response to the exact-match lookup makes
`FetchLyrics` return `(nil, nil)` — the "not found" outcome — rather than
an error; likewise a 503 on the search lookup. -/
theorem fetchLyrics_other_status_counterexample :
    FetchLyrics (.response 500 (.ok ⟨""⟩)) (.transportErr "unused") = (none, none) ∧
      fetchLyricsBySearch (.response 503 (.readErr "unused")) = (none, none) := by
  constructor <;> rfl

/-- C4 (amended).  A transport failure on either lookup is an error, but a
response status other than 200/404/400 on the exact-match lookup — and any
non-200 status on the search lookup — yields the "not found" outcome
`(nil, nil)`, not an error. -/
theorem fetchLyrics_other_status_not_error
    (search : HTTPResult (List LrcLibAPIResponse)) :
    (∀ status body, status ≠ 200 → status ≠ 404 → status ≠ 400 →
      FetchLyrics (.response status body) search = (none, none)) ∧
    (∀ status body, status ≠ 200 →
      fetchLyricsBySearch (.response status body) = (none, none)) ∧
    (∀ e, FetchLyrics (.transportErr e) search = (none, some e)) ∧
    (∀ e, fetchLyricsBySearch (.transportErr e) = (none, some e)) := by
  refine ⟨fun status body h200 h404 h400 => ?_, fun status body h200 => ?_,
    fun e => rfl, fun e => rfl⟩
  · show (if status = 404 ∨ status = 400 then fetchLyricsBySearch search
      else if status ≠ 200 then (none, none) else _) = ((none : Option LrcLibLyric), (none : Option String))
    rw [if_neg (by omega : ¬ (status = 404 ∨ status = 400)), if_pos h200]
  · show (if status ≠ 200 then (none, none) else _) = ((none : Option LrcLibLyric), (none : Option String))
    rw [if_pos h200]

/-- Witness for `fetchLyrics_other_status_not_error` at status 500. -/
theorem fetchLyrics_other_status_not_error_witness :
    FetchLyrics (.response 500 (.ok ⟨""⟩)) (.transportErr "x") = (none, none) :=
  (fetchLyrics_other_status_not_error (.transportErr "x")).1
    500 (.ok ⟨""⟩) (by omega) (by omega) (by omega)

/-! ## The polling loop (src/pool/pool.go:29-95)

`Listen` keeps three loop variables — `state`, `index`, `lines` — and on
each iteration handles either a fresh player sample (with a possible lyric
fetch) or a ticker tick, then recomputes the index and conditionally emits
an `Update`.  `sampleStep` and `tickStep` are the two iteration bodies as
pure state transformers; the fetch result and the elapsed wall-clock time
are oracle arguments.  (`lastUpdate` only feeds the elapsed-time oracle, so
it is not part of the modelled state; the channel send appears as the
returned `Option Update`.) -/

/-- Embeds `pool.playerState` (src/pool/pool.go:19-26). -/
structure playerState where
  Title : String
  Artist : String
  Album : String
  Playing : Bool
  Position : ℚ
  Err : Option String
deriving DecidableEq

/-- Embeds `pool.Update` (src/pool/pool.go:12-17). -/
structure Update where
  Lines : List LyricLine
  Index : ℕ
  Playing : Bool
  Err : Option String
deriving DecidableEq

/-- The loop variables of `Listen` (src/pool/pool.go:36-41). -/
structure ListenVars where
  state : playerState
  index : ℕ
  lines : List LyricLine
deriving DecidableEq

/-- Zero values of the loop variables at the top of `Listen`. -/
def initListenVars : ListenVars := ⟨⟨"", "", "", false, 0, none⟩, 0, []⟩

/-- One iteration of `Listen` that received `newState` from the player
channel (src/pool/pool.go:49-70 plus the common tail 80-93).  `fetch` is
`FetchLyrics`'s result `(lyric, err)`, consulted only on an identity change
with non-empty title and artist.  Note two source quirks this model
preserves: on `err ≠ nil` the code assigns `state.Err = err` but then
executes `state = newState`, so the fetch error never reaches the emitted
`Update` (whose `Err` is `newState.Err`); and on the not-found outcome
(`err = nil`, `lyric = nil`) neither branch runs, so `lines` keeps the
previous track's lines. -/
def sampleStep (v : ListenVars) (newState : playerState)
    (fetch : Option LrcLibLyric × Option String) : ListenVars × Option Update :=
  let tc := newState.Title != v.state.Title || newState.Artist != v.state.Artist ||
    newState.Album != v.state.Album
  let lines1 : List LyricLine :=
    if tc then
      if newState.Title != "" && newState.Artist != "" then
        match fetch with
        | (_, some _) => []
        | (some lyric, none) => lyric.Lines
        | (none, none) => v.lines
      else []
    else v.lines
  let index1 := if tc then 0 else v.index
  let changed1 := tc || (newState.Playing != v.state.Playing)
  let newIndex := getIndex newState.Position index1 lines1
  (⟨newState, newIndex, lines1⟩,
   if changed1 || (newIndex != index1) then
     some ⟨lines1, newIndex, newState.Playing, newState.Err⟩
   else none)

/-- One ticker iteration of `Listen` (src/pool/pool.go:71-78 plus the
common tail): when playing with lyrics present, the position advances by
the elapsed wall-clock time; either way the index is then recomputed. -/
def tickStep (v : ListenVars) (elapsed : ℚ) : ListenVars × Option Update :=
  let pos1 := if v.state.Playing && !v.lines.isEmpty then v.state.Position + elapsed
    else v.state.Position
  let state1 : playerState := { v.state with Position := pos1 }
  let newIndex := getIndex pos1 v.index v.lines
  (⟨state1, newIndex, v.lines⟩,
   if newIndex != v.index then
     some ⟨v.lines, newIndex, state1.Playing, state1.Err⟩
   else none)

/-! ## Claim C8: steps without observable change emit nothing -/

/-- C8 (amended).  A sample step that changes neither the identity triple,
nor the playing flag, nor the recomputed index emits no `Update`, and
likewise a ticker step whose recomputed index is unchanged.  However, two
consecutive identical samples can still produce two `Updates` (see the
counterexample): the index recomputation itself is not idempotent at a
position that exactly ties a line time below the current index. -/
theorem listen_no_change_no_update (v : ListenVars) (ns : playerState)
    (fetch : Option LrcLibLyric × Option String) (elapsed : ℚ) :
    (ns.Title = v.state.Title → ns.Artist = v.state.Artist →
      ns.Album = v.state.Album → ns.Playing = v.state.Playing →
      getIndex ns.Position v.index v.lines = v.index →
      (sampleStep v ns fetch).2 = none) ∧
    (getIndex (if v.state.Playing && !v.lines.isEmpty
                then v.state.Position + elapsed else v.state.Position)
        v.index v.lines = v.index →
      (tickStep v elapsed).2 = none) := by
  constructor
  · intro h1 h2 h3 h4 h5
    simp only [sampleStep, h1, h2, h3, h4, bne_self_eq_false, Bool.or_self,
      Bool.false_eq_true, if_false, h5, Bool.or_false]
  · intro h5
    simp only [tickStep, h5, bne_self_eq_false, Bool.false_eq_true, if_false]

/-- Player sample that seeds the loop with track `t` at position 10. -/
def ps0 : playerState := ⟨"t", "a", "al", true, 10, none⟩

/-- The identical sample delivered twice in the C8 counterexample: same
track, same playing flag, position 5. -/
def psTie : playerState := ⟨"t", "a", "al", true, 5, none⟩

/-- A sample announcing a different track at position 0. -/
def ps2 : playerState := ⟨"t2", "a2", "al2", true, 0, none⟩

/-- C8 (counterexample).  Starting from the zero state: a sample for track
`t` (lyrics `lyr3` found) runs the index to 2; then the *same* sample
`psTie` (position 5, a tie with line 1's time) delivered twice produces two
`Update`s — the first recomputation backs off to index 0, the second moves
to index 1. -/
theorem listen_two_identical_samples_counterexample :
    (sampleStep ((sampleStep initListenVars ps0 (some ⟨lyr3⟩, none)).1)
        psTie (none, none)).2 = some ⟨lyr3, 0, true, none⟩ ∧
    (sampleStep ((sampleStep ((sampleStep initListenVars ps0 (some ⟨lyr3⟩, none)).1)
        psTie (none, none)).1) psTie (none, none)).2 = some ⟨lyr3, 1, true, none⟩ :=
  of_decide_eq_true (by with_unfolding_all rfl)

/-- Witness for `listen_no_change_no_update`: re-delivering `ps0` to the
settled state emits nothing. -/
theorem listen_no_change_no_update_witness :
    (sampleStep ⟨ps0, 2, lyr3⟩ ps0 (none, none)).2 = none :=
  (listen_no_change_no_update ⟨ps0, 2, lyr3⟩ ps0 (none, none) 0).1
    rfl rfl rfl rfl (by decide)

/-! ## Claim C2: what a failed or empty resolution leaves in the next Update -/

/-- C2 (code bug).  Track `t` resolves to `lyr3`; then a sample announces
track `t2` whose resolution is the not-found outcome (`nil` lyric, `nil`
error).  The claim (and spec §4.4) says the next `Update` carries an empty
`LyricSet`; instead the code's not-found path leaves `lines` untouched, so
the `Update` for the new track carries the previous track's three lines
(with the index merely reset) — first conjunct.  The error half of the
claim fails as well — third conjunct: when the resolution for `t2` returns
the error `"boom"`, the emitted `Update` does clear the lines but carries
`Err = none`, because the `state.Err = err` store is dead (`state =
newState` follows it before the emit). -/
theorem listen_stale_lines_on_notfound :
    (sampleStep ((sampleStep initListenVars ps0 (some ⟨lyr3⟩, none)).1)
        ps2 (none, none)).2 = some ⟨lyr3, 0, true, none⟩ ∧ lyr3 ≠ [] ∧
    (sampleStep ((sampleStep initListenVars ps0 (some ⟨lyr3⟩, none)).1)
        ps2 (none, some "boom")).2 = some ⟨[], 0, true, none⟩ :=
  of_decide_eq_true (by with_unfolding_all rfl)

/-! ## The controller's seek handler (src/unnamed/part_000:64-88)

`handleSeek` reads `lastLyric` under the mutex and returns when it is
`nil`.  Otherwise it cancels the current context (when one exists), waits
on the `WaitGroup` for the running display task — which holds no mutex in
its display phase and exits on cancellation — then creates a fresh context,
increments the `WaitGroup` and spawns a new display goroutine over the
*saved* lyric.  The handler ignores its `pos` argument entirely (the
display loop re-polls the player position itself).  The model below is the
handler's completed effect on the controller state, with contexts numbered
by creation order: `cancel` holds the current context's number and
`nextCtx` the next fresh one. -/

structure MainState where
  lastLyric : Option (List LyricLine)
  cancel : Option ℕ
  nextCtx : ℕ
deriving DecidableEq

/-- What a completed `handleSeek` call did: nothing, or cancelled the
context `cancelledCtx` (when not `none`), created context `newCtx` and
spawned a display task over `displayed`. -/
inductive SeekEffect where
  | ignored
  | restarted (cancelledCtx : Option ℕ) (newCtx : ℕ) (displayed : List LyricLine)
deriving DecidableEq

/-- Embeds `handleSeek` (src/unnamed/part_000:64-88). -/
def handleSeek (st : MainState) (_pos : ℚ) : MainState × SeekEffect :=
  match st.lastLyric with
  | none => (st, .ignored)
  | some lyr =>
    ({ lastLyric := some lyr, cancel := some st.nextCtx, nextCtx := st.nextCtx + 1 },
     .restarted st.cancel st.nextCtx lyr)

/-! ## Claim C7: what a Seek does to the active session -/

/-- Controller state with a saved lyric and a live context `0`. -/
def mst : MainState := ⟨some lyr3, some 0, 1⟩

/-- C7 (counterexample).  A Seek arriving with a saved lyric and a live
session does *not* leave the session's cancellation token unchanged: it
cancels context `0` and replaces it with the fresh context `1`, restarting
the display task. -/
theorem handleSeek_counterexample :
    (handleSeek mst 5).1.cancel ≠ mst.cancel ∧
      (handleSeek mst 5).2 = .restarted (some 0) 1 lyr3 :=
  ⟨by decide, rfl⟩

/-- C7 (amended).  A Seek with no saved lyric is ignored.  A Seek with a
saved lyric *cancels the current context and restarts the display task*:
the saved `LyricSet` is reused unchanged (no refetch, so the index is
recomputed against the same track's lines) and `lastLyric` is untouched,
but the cancellation token is replaced by a fresh one. -/
theorem handleSeek_characterization (st : MainState) (pos : ℚ) :
    (st.lastLyric = none → handleSeek st pos = (st, .ignored)) ∧
    (∀ l, st.lastLyric = some l →
      handleSeek st pos =
        (⟨some l, some st.nextCtx, st.nextCtx + 1⟩,
         .restarted st.cancel st.nextCtx l)) := by
  obtain ⟨ll, c, n⟩ := st
  constructor
  · intro h
    cases h
    rfl
  · intro l hl
    cases hl
    rfl

/-- Witness for `handleSeek_characterization` at `mst`. -/
theorem handleSeek_characterization_witness :
    handleSeek mst 5 = (⟨some lyr3, some 1, 2⟩, .restarted (some 0) 1 lyr3) :=
  (handleSeek_characterization mst 5).2 lyr3 rfl

/-! ## The controller's track handler (src/unnamed/part_000:37-62)

`handleTrack` runs, with the mutex held: `cancel()` (when non-nil) and then
`wg.Wait()`; only after the wait does it create a fresh context, increment
the `WaitGroup`, unlock and spawn the new fetch goroutine.  The spawned
goroutine fetches lyrics over the network and then *itself locks the same
mutex* to store `lastLyric` before it can finish.  The interleaving of one
handler activation with the one possibly-live worker goroutine is modelled
as a transition relation over explicit program counters; `wg.Wait()` is
waiting for `worker = none`, and a worker in its display phase only exits
once its context has been cancelled (otherwise it keeps looping). -/

/-- Program counter of the fetch-and-display goroutine
(src/unnamed/part_000:47-61): fetching over the network, waiting to lock
the mutex, writing `lastLyric` (then unlocking), displaying. -/
inductive WPC where
  | fetching | waitMu | writing | displaying
deriving DecidableEq

/-- One live goroutine: the track it was spawned for, its program counter,
and whether its context has been cancelled. -/
structure Worker where
  track : String
  pc : WPC
  ctxCancelled : Bool
deriving DecidableEq

/-- Program counter of a `handleTrack` activation: about to lock, about to
cancel, blocked in `wg.Wait()`, past the wait (creating the fresh context,
`wg.Add`, unlock), done having spawned the new worker. -/
inductive HPC where
  | locking | cancelling | waitingWg | ready | spawned
deriving DecidableEq

/-- Joint configuration: the handler activation (for track `newTrack`), the
at-most-one live worker, and whether the mutex is held. -/
structure Conf where
  handler : HPC
  newTrack : String
  worker : Option Worker
  muHeld : Bool
deriving DecidableEq

/-- Interleaved small-step semantics of one `handleTrack(newTrack)`
activation alongside the live worker. -/
inductive HandleTrackStep : Conf → Conf → Prop where
  | lock (nt : String) (w : Option Worker) :
      HandleTrackStep ⟨.locking, nt, w, false⟩ ⟨.cancelling, nt, w, true⟩
  | cancelSome (nt t : String) (pc : WPC) (cc : Bool) :
      HandleTrackStep ⟨.cancelling, nt, some ⟨t, pc, cc⟩, true⟩
        ⟨.waitingWg, nt, some ⟨t, pc, true⟩, true⟩
  | cancelNone (nt : String) :
      HandleTrackStep ⟨.cancelling, nt, none, true⟩ ⟨.waitingWg, nt, none, true⟩
  | wgDone (nt : String) :
      HandleTrackStep ⟨.waitingWg, nt, none, true⟩ ⟨.ready, nt, none, true⟩
  | spawn (nt : String) :
      HandleTrackStep ⟨.ready, nt, none, true⟩
        ⟨.spawned, nt, some ⟨nt, .fetching, false⟩, false⟩
  | fetchDone (h : HPC) (nt t : String) (cc : Bool) (m : Bool) :
      HandleTrackStep ⟨h, nt, some ⟨t, .fetching, cc⟩, m⟩
        ⟨h, nt, some ⟨t, .waitMu, cc⟩, m⟩
  | workerLock (h : HPC) (nt t : String) (cc : Bool) :
      HandleTrackStep ⟨h, nt, some ⟨t, .waitMu, cc⟩, false⟩
        ⟨h, nt, some ⟨t, .writing, cc⟩, true⟩
  | workerWrite (h : HPC) (nt t : String) (cc : Bool) :
      HandleTrackStep ⟨h, nt, some ⟨t, .writing, cc⟩, true⟩
        ⟨h, nt, some ⟨t, .displaying, cc⟩, false⟩
  | workerExit (h : HPC) (nt t : String) (m : Bool) :
      HandleTrackStep ⟨h, nt, some ⟨t, .displaying, true⟩, m⟩ ⟨h, nt, none, m⟩

/-- A `handleTrack("T2")` activation beginning while the worker spawned for
`"T1"` is still fetching. -/
def startConf : Conf := ⟨.locking, "T2", some ⟨"T1", .fetching, false⟩, false⟩

/-- The configuration the system is driven into: the handler blocked in
`wg.Wait()` holding the mutex, the old worker done fetching and blocked on
that same mutex. -/
def deadConf : Conf := ⟨.waitingWg, "T2", some ⟨"T1", .waitMu, true⟩, true⟩

/-! ## Claim C9: rapid track changes and session supersession -/

/-- C9 (code bug).  From a `TrackChanged("T2")` that arrives while
`"T1"`'s resolution is in flight, the system reaches a configuration with
no outgoing step at all: `handleTrack` holds the mutex across `wg.Wait()`
while the superseded goroutine must lock that mutex (to store `lastLyric`)
before it can exit — a deadlock.  In it the superseded `"T1"` task is still
live and the session for the last identity `"T2"` has not started and never
will, contradicting the claim that the controller blocks until the old task
has exited and then leaves exactly the last identity's session live. -/
theorem handleTrack_deadlock :
    Relation.ReflTransGen HandleTrackStep startConf deadConf ∧
    (∀ c, ¬ HandleTrackStep deadConf c) ∧
    deadConf.worker = some ⟨"T1", .waitMu, true⟩ ∧
    deadConf.handler ≠ .spawned := by
  refine ⟨?_, ?_, rfl, by decide⟩
  · exact .head (.lock _ _) (.head (.cancelSome _ _ _ _)
      (.head (.fetchDone _ _ _ _ _) .refl))
  · intro c h
    cases h

end LyricsMPRIS
